import Mathlib

/-
Verification development for the Auric-v1 audio acquisition-and-playback
pipeline (src/workingdesktopappdownloader.py).  Each Python function that the
claims touch is shallowly embedded as an executable Lean definition; file
names are modelled as lists of characters, byte contents as lists of natural
numbers, wall-clock times and durations as rationals, and the filesystem and
external processes as explicit inputs describing their observable outcomes.
-/

/- ------------------------------------------------------------------
   sanitize_filename (source line 117-118):
     return "".join(c if c.isalnum() or c in " ._-()" else "_" for c in name).strip()
   ------------------------------------------------------------------ -/

/-- The extra characters kept by sanitize_filename, the Python string " ._-()". -/
def allowedPunct : List Char := [' ', '.', '_', '-', '(', ')']

/-- Keep test of sanitize_filename: c.isalnum() or c in " ._-()".
Char.isAlphanum models Python's str.isalnum. -/
def allowedKeep (c : Char) : Bool := c.isAlphanum || decide (c ∈ allowedPunct)

/-- Python str.strip with no argument: drop leading and trailing whitespace. -/
def pyStrip (s : List Char) : List Char :=
  ((s.dropWhile Char.isWhitespace).reverse.dropWhile Char.isWhitespace).reverse

/-- Embedding of sanitize_filename: map each disallowed character to an
underscore, then strip surrounding whitespace. -/
def sanitize_filename (name : List Char) : List Char :=
  pyStrip (name.map (fun c => if allowedKeep c then c else '_'))

/- ------------------------------------------------------------------
   is_real_mp3 (source line 219-232): reads the first 4 bytes; true when the
   header starts with b"ID3" or its first two bytes are 0xff 0xfb.
   ------------------------------------------------------------------ -/

/-- Embedding of is_real_mp3 over the file's byte content.  73, 68, 51 are
the ASCII codes of "I", "D", "3"; 255 and 251 are 0xff and 0xfb. -/
def is_real_mp3 (content : List Nat) : Bool :=
  let header := content.take 4
  if header = [] then false
  else if [73, 68, 51].isPrefixOf header then true
  else if header.take 2 = [255, 251] then true
  else false

/- ------------------------------------------------------------------
   convert_to_mp3_with_ffmpeg (source line 171-216).  The external process is
   modelled by its observable outcome: either subprocess.run completes with a
   return code and some state of the target path (the size of the file the
   transcoder left there, none when no file was written), or it raises
   (timeout included), again leaving some target-path state behind.
   ------------------------------------------------------------------ -/

/-- Observable outcome of the ffmpeg subprocess invocation. -/
inductive FfmpegRun where
  | completes (returncode : Int) (targetFile : Option Nat) : FfmpegRun
  | raisesErr (targetFile : Option Nat) : FfmpegRun
deriving DecidableEq

/-- Decides whether an ffmpeg run outcome is a failure for the purposes of
convert_to_mp3_with_ffmpeg: a non-zero exit, a missing output file, or an
exception (which covers the 120 s timeout). -/
def ffmpegRunFails : FfmpegRun → Bool
  | .completes rc tgt => !(decide (rc = 0) && tgt.isSome)
  | .raisesErr _ => true

/-- Embedding of convert_to_mp3_with_ffmpeg.  Input: whether ffmpeg_exists()
holds, the state of the target path before the call (size of an existing file
there, none when absent), and the run outcome.  Output: the returned Bool and
the state of the target path after the call.  Mirrors the source: early False
when ffmpeg is missing; True when returncode == 0 and the target exists
(no size check); otherwise the target is removed and False returned, the
same on an exception. -/
def convert_to_mp3_with_ffmpeg (ffmpegAvailable : Bool) (targetBefore : Option Nat)
    (run : FfmpegRun) : Bool × Option Nat :=
  if ffmpegAvailable = false then (false, targetBefore)
  else
    match run with
    | .completes rc tgt => if rc = 0 ∧ tgt.isSome then (true, tgt) else (false, none)
    | .raisesErr _ => (false, none)

/- ------------------------------------------------------------------
   Duration resolution (source line 234-287).
   ------------------------------------------------------------------ -/

/-- Embedding of estimate_duration_from_size_bytes: None when the size is not
positive, otherwise (size * 8) / (assumed_bitrate_kbps * 1000). -/
def estimate_duration_from_size_bytes (sizeBytes : Nat) (assumedBitrateKbps : ℚ) : Option ℚ :=
  if sizeBytes = 0 then none
  else some ((sizeBytes * 8 : ℚ) / (assumedBitrateKbps * 1000))

/-- Stage 4 of get_duration_best_effort: the size estimate, accepted when
truthy (non-zero). -/
def durationStage4 (sizeBytes : Nat) : Option ℚ :=
  match estimate_duration_from_size_bytes sizeBytes 128 with
  | some est => if est ≠ 0 then some est else none
  | none => none

/-- Stage 3 of get_duration_best_effort: SoundLoader length, accepted when
truthy and strictly positive (the source tests both). -/
def durationStage3 (soundLength : Option ℚ) (sizeBytes : Nat) : Option ℚ :=
  match soundLength with
  | some l => if l ≠ 0 ∧ 0 < l then some l else durationStage4 sizeBytes
  | none => durationStage4 sizeBytes

/-- Stage 2 of get_duration_best_effort: mutagen stream length, accepted when
truthy (non-zero); none also covers mutagen being absent or raising. -/
def durationStage2 (mutagenLength soundLength : Option ℚ) (sizeBytes : Nat) : Option ℚ :=
  match mutagenLength with
  | some m => if m ≠ 0 then some m else durationStage3 soundLength sizeBytes
  | none => durationStage3 soundLength sizeBytes

/-- Embedding of get_duration_best_effort.  Each fallible duration source is
an input: the duration declared on the entry metadata, the length read by
mutagen, the length reported by SoundLoader (none models absence, a raised
exception, or a falsy value from the library), and the file size in bytes for
the final estimate. -/
def get_duration_best_effort (declaredDuration mutagenLength soundLength : Option ℚ)
    (sizeBytes : Nat) : Option ℚ :=
  match declaredDuration with
  | some d => if d ≠ 0 then some d else durationStage2 mutagenLength soundLength sizeBytes
  | none => durationStage2 mutagenLength soundLength sizeBytes

/-- Ranked-strategy resolver written from the spec's words: try the sources
in order and short-circuit on the first one that yields a positive number.
Used only to compare the code's resolver against the spec's description. -/
def durationResolveRankedSpec : List (Option ℚ) → Option ℚ
  | [] => none
  | none :: rest => durationResolveRankedSpec rest
  | some v :: rest => if 0 < v then some v else durationResolveRankedSpec rest

/- ------------------------------------------------------------------
   Candidate selection after a fetch.
   Batch driver: DownloadManager._download_audio, source line 534-579.
   Stream driver: StreamPlayer._prepare_for_stream, source line 834-868.
   A temporary-directory entry is modelled by its name, whether it is a
   regular file, its size in bytes and its modification time.
   ------------------------------------------------------------------ -/

/-- One entry of the temporary download directory listing. -/
structure TempFile where
  name : List Char
  isfile : Bool
  size : Nat
  mtime : Nat
deriving DecidableEq

/-- Python str.endswith for list-of-character names. -/
def listEndsWith (s suf : List Char) : Bool := suf.isSuffixOf s

/-- Python str.startswith for list-of-character names. -/
def listStartsWith (s pre : List Char) : Bool := pre.isPrefixOf s

/-- ASCII lowercasing of one character, modelling Python str.lower on the
names this program produces. -/
def pyLowerChar (c : Char) : Char :=
  if 65 ≤ c.toNat ∧ c.toNat ≤ 90 then Char.ofNat (c.toNat + 32) else c

/-- The ".ytdl" in-progress suffix. -/
def ytdlSuffix : List Char := [ '.', 'y', 't', 'd', 'l' ]

/-- The in-progress suffix of a partially written download. -/
def partSuffix : List Char := [ '.', 'p', 'a', 'r', 't' ]

/-- The "dl_" output-template marker of the batch driver. -/
def dlMarker : List Char := [ 'd', 'l', '_' ]

/-- The ".mp3" extension. -/
def mp3Ext : List Char := [ '.', 'm', 'p', '3' ]

/-- Batch-driver candidate filter (source line 540-548): regular files whose
names carry no in-progress suffix and start with "dl_". -/
def batchCandidateFilter (listing : List TempFile) : List TempFile :=
  listing.filter (fun f =>
    f.isfile && !(listEndsWith f.name ytdlSuffix) && !(listEndsWith f.name partSuffix)
      && listStartsWith f.name dlMarker)

/-- Stable insertion used to model Python sorted(..., key=mtime, reverse=True):
a new element is placed before the first element whose mtime it weakly
dominates, so equal keys keep their original relative order. -/
def insertByMtimeDesc (f : TempFile) : List TempFile → List TempFile
  | [] => [f]
  | g :: rest => if g.mtime ≤ f.mtime then f :: g :: rest else g :: insertByMtimeDesc f rest

/-- Python sorted by modification time, newest first (source line 554). -/
def pySortByMtimeDesc : List TempFile → List TempFile
  | [] => []
  | f :: rest => insertByMtimeDesc f (pySortByMtimeDesc rest)

/-- Batch-driver selection (source line 538-564): filter the listing, sort by
modification time newest first, and take the first candidate whose size is
positive. -/
def batchSelect (listing : List TempFile) : Option TempFile :=
  (pySortByMtimeDesc (batchCandidateFilter listing)).find? (fun f => decide (0 < f.size))

/-- Eligibility test of the stream-driver scan (source line 840-846): not an
in-progress file, name starts with the sanitized title, a regular file of
positive size. -/
def streamEligible (pre : List Char) (f : TempFile) : Bool :=
  !(listEndsWith f.name ytdlSuffix) && !(listEndsWith f.name partSuffix)
    && listStartsWith f.name pre && f.isfile && decide (0 < f.size)

/-- Loop body of the stream-driver scan (source line 840-850): walk the
listing in order, remember the latest eligible entry, and break at the first
eligible entry whose lowercased name ends in ".mp3". -/
def streamFind (pre : List Char) : List TempFile → Option TempFile → Option TempFile
  | [], acc => acc
  | f :: rest, acc =>
    if listEndsWith f.name ytdlSuffix || listEndsWith f.name partSuffix then
      streamFind pre rest acc
    else if listStartsWith f.name pre then
      if f.isfile && decide (0 < f.size) then
        if listEndsWith (f.name.map pyLowerChar) mp3Ext then some f
        else streamFind pre rest (some f)
      else streamFind pre rest acc
    else streamFind pre rest acc

/-- Stream-driver selection of the downloaded file. -/
def streamSelect (listing : List TempFile) (pre : List Char) : Option TempFile :=
  streamFind pre listing none

/-- Last element of a list as an option, written as the fold the scan loop
performs on its accumulator. -/
def lastOption (l : List TempFile) : Option TempFile :=
  l.foldl (fun _ f => some f) none

/-- Characterization of the stream-driver selection, written from the loop's
observable behaviour: the first eligible candidate named *.mp3 in listing
order or, when there is none, the last eligible candidate in listing order. -/
def streamSelectSpec (pre : List Char) (listing : List TempFile) : Option TempFile :=
  let valid := listing.filter (streamEligible pre)
  match valid.find? (fun f => listEndsWith (f.name.map pyLowerChar) mp3Ext) with
  | some f => some f
  | none => lastOption valid

/- ------------------------------------------------------------------
   Per-entry format decision of the acquisition path.
   Batch: DownloadManager._download_audio, source line 589-653.
   Stream: StreamPlayer._prepare_for_stream, source line 870-893.
   ------------------------------------------------------------------ -/

/-- What an acquisition decided for one downloaded file: whether the ffmpeg
transcoder was invoked, whether the reported file is in the target (MP3)
format, and whether the original downloaded file is the one used. -/
structure AcquisitionOutcome where
  invokedFfmpeg : Bool
  isTargetFormat : Bool
  usedOriginal : Bool
deriving DecidableEq

/-- Batch-driver decision chain for one downloaded file (source line
589-653): a structurally valid MP3 is moved to the library directly; else
when ffmpeg exists a conversion is attempted, keeping the converted file on
success and the original file and format on failure; without ffmpeg the
original is kept.  conversionOk bundles convert_to_mp3_with_ffmpeg returning
True together with the converted file being present and movable. -/
def batchProcessDownloadedFile (content : List Nat) (ffmpegAvailable conversionOk : Bool) :
    AcquisitionOutcome :=
  if is_real_mp3 content then ⟨false, true, true⟩
  else if ffmpegAvailable then
    if conversionOk then ⟨true, true, false⟩
    else ⟨true, false, true⟩
  else ⟨false, false, true⟩

/-- Stream-driver decision chain for one downloaded file (source line
870-893): identical branch structure to the batch driver's. -/
def streamPrepareFormat (content : List Nat) (ffmpegAvailable conversionOk : Bool) :
    AcquisitionOutcome :=
  if is_real_mp3 content then ⟨false, true, true⟩
  else if ffmpegAvailable then
    if conversionOk then ⟨true, true, false⟩
    else ⟨true, false, true⟩
  else ⟨false, false, true⟩

/- ------------------------------------------------------------------
   DownloadManager._download_audio control flow (source line 467-667):
   early return when yt_dlp is missing (line 469-471), early return when the
   fetch raises (line 510-513), per-entry loop with a stop-flag check and a
   per-entry try/except that always continues (line 529-657), and the final
   temp cleanup loop (line 659-667).
   ------------------------------------------------------------------ -/

/-- Observable result of one batch download run. -/
structure BatchRunResult where
  iterationsRun : Nat
  entriesSucceeded : Nat
  cleanedTemp : Bool
deriving DecidableEq

/-- The per-entry loop: stops early when the stop flag is observed at the top
of an iteration; the body is wrapped in try/except, so an entry failing
(entryOk i = false) never stops the loop.  Returns iterations run and
successes. -/
def batchLoop (stopFlagAt entryOk : Nat → Bool) : Nat → Nat → Nat × Nat
  | _, 0 => (0, 0)
  | i, r + 1 =>
    if stopFlagAt i then (0, 0)
    else
      let rest := batchLoop stopFlagAt entryOk (i + 1) r
      (rest.1 + 1, rest.2 + (if entryOk i then 1 else 0))

/-- Embedding of the _download_audio control flow.  hasYtdlp models HAS_YTDLP,
fetchRaises models the yt_dlp download call raising, entryCount the number of
resolved entries, stopFlagAt the stop flag observed at each iteration's
check, entryOk whether each entry's processing succeeds.  cleanedTemp records
whether the final temp-directory cleanup loop was reached. -/
def DownloadManager.downloadAudio (hasYtdlp fetchRaises : Bool) (entryCount : Nat)
    (stopFlagAt entryOk : Nat → Bool) : BatchRunResult :=
  if hasYtdlp = false then ⟨0, 0, false⟩
  else if fetchRaises then ⟨0, 0, false⟩
  else
    let p := batchLoop stopFlagAt entryOk 0 entryCount
    ⟨p.1, p.2, true⟩

/- ------------------------------------------------------------------
   StreamPlayer.cleanup_temp (source line 691-702): remove every file of the
   stream cache directory except the one whose absolute path equals the
   absolute path of the session's current file (Python truthiness: an unset
   or empty current_file protects nothing).
   ------------------------------------------------------------------ -/

/-- True when cleanup_temp skips this path: current_file is truthy and the
absolute paths coincide (source line 696). -/
def cleanupProtects (abspath : List Char → List Char) (currentFile : Option (List Char))
    (fp : List Char) : Bool :=
  match currentFile with
  | some cf => decide (cf ≠ []) && decide (abspath fp = abspath cf)
  | none => false

/-- Embedding of StreamPlayer.cleanup_temp: the list of paths the loop
removes from the given directory listing.  abspath models os.path.abspath. -/
def StreamPlayer.cleanup_temp (abspath : List Char → List Char)
    (listing : List (List Char)) (currentFile : Option (List Char)) : List (List Char) :=
  listing.filter (fun fp => !(cleanupProtects abspath currentFile fp))

/- ------------------------------------------------------------------
   StreamPlayer.stream_playlist (source line 704-753): reset the flags and
   the queue cursor, purge the cache, resolve the URL; on no entries return
   at once (the queue keeps its previous contents); otherwise overwrite the
   queue with the resolved entries and iterate, checking the stop flag at the
   top of each iteration and setting current_index to the iteration number.
   Nothing at the end empties the queue or resets current_index; only the UI
   display is cleared and the cache purged.
   ------------------------------------------------------------------ -/

/-- The StreamPlayer state the streaming run mutates (entries are modelled by
numeric ids). -/
structure StreamState where
  queue : List Nat
  current_index : Nat
  stop_flag : Bool
  pause_flag : Bool
  skip_flag : Bool
deriving DecidableEq

/-- The per-entry streaming loop (source line 718-748): at each iteration the
externally set stop flag is read; when set the loop breaks, otherwise
current_index becomes the iteration number.  Preparation or playback failures
are caught inside the loop body and never change the cursor bookkeeping. -/
def streamLoop (stopFlagAt : Nat → Bool) : StreamState → Nat → Nat → StreamState
  | s, _, 0 => s
  | s, i, r + 1 =>
    if stopFlagAt i then { s with stop_flag := true }
    else streamLoop stopFlagAt { s with current_index := i } (i + 1) r

/-- Embedding of StreamPlayer.stream_playlist over the state fields the claim
is about.  resolved is the entry list obtained from the URL, stopFlagAt the
stop flag observed at each iteration's check. -/
def StreamPlayer.stream_playlist (s : StreamState) (resolved : List Nat)
    (stopFlagAt : Nat → Bool) : StreamState :=
  let s0 : StreamState :=
    { s with stop_flag := false, pause_flag := false, skip_flag := false, current_index := 0 }
  if resolved = [] then s0
  else streamLoop stopFlagAt { s0 with queue := resolved } 0 resolved.length

/- ------------------------------------------------------------------
   Playback timing: play_song setup (source line 947-952), _progress_tick
   (source line 1024-1032), pause (source line 1054-1075) and resume
   (source line 1077-1098).  Wall-clock instants are rationals.
   ------------------------------------------------------------------ -/

/-- The timing fields of a playback session. -/
structure PlayTiming where
  play_start_time : ℚ
  total_paused_time : ℚ
  last_pause_time : ℚ
  pause_position : ℚ
  pause_flag : Bool
deriving DecidableEq

/-- Outcome of the sound.get_pos() call inside pause: a reported position, a
None report (leaving pause_position untouched), or an exception (position
computed from the elapsed-time accounting instead). -/
inductive GetPosResult where
  | val (p : ℚ)
  | noneResult
  | raisesErr
deriving DecidableEq

/-- Timing state right after play_song starts playback at instant now
(source line 947-952). -/
def PlayTiming.start (now : ℚ) : PlayTiming :=
  ⟨now, 0, 0, 0, false⟩

/-- Elapsed time the progress tick computes at instant now (source line
1029-1032): now - play_start_time - total_paused_time, frozen at the pause
timestamp while paused. -/
def StreamPlayer.elapsedAt (s : PlayTiming) (now : ℚ) : ℚ :=
  if s.pause_flag ∧ 0 < s.last_pause_time then
    s.last_pause_time - s.play_start_time - s.total_paused_time
  else now - s.play_start_time - s.total_paused_time

/-- Embedding of StreamPlayer.pause at instant now.  soundPlaying models the
guard that the handle exists and reports the "play" state; posRes the
get_pos() call.  Mirrors the source: capture the position, stop the handle,
raise the pause flag, and record the pause timestamp when none is pending. -/
def StreamPlayer.pause (s : PlayTiming) (now : ℚ) (soundPlaying : Bool)
    (posRes : GetPosResult) : PlayTiming :=
  if soundPlaying then
    let s1 :=
      match posRes with
      | .val p => { s with pause_position := p }
      | .noneResult => s
      | .raisesErr =>
        { s with pause_position := now - s.play_start_time - s.total_paused_time }
    let s2 := { s1 with pause_flag := true }
    if s2.last_pause_time = 0 then { s2 with last_pause_time := now } else s2
  else s

/-- Embedding of StreamPlayer.resume at instant now.  soundLoaded models the
guard that a handle exists; hasSeek whether the backend has a seek method;
seekRaises whether the attempted seek raises (the except branch rewrites
play_start_time so the elapsed-time accounting stays continuous).  Mirrors
the source: fold the pause interval into total_paused_time, clear the pause
timestamp, attempt the seek, and drop the pause flag. -/
def StreamPlayer.resume (s : PlayTiming) (now : ℚ) (soundLoaded hasSeek seekRaises : Bool) :
    PlayTiming :=
  if soundLoaded ∧ s.pause_flag then
    let s1 :=
      if 0 < s.last_pause_time then
        { s with total_paused_time := s.total_paused_time + (now - s.last_pause_time),
                 last_pause_time := 0 }
      else s
    let s2 :=
      if s1.pause_position ≠ 0 ∧ hasSeek then
        if seekRaises then
          { s1 with play_start_time := now - (s1.pause_position + s1.total_paused_time),
                    pause_position := 0 }
        else { s1 with pause_position := 0 }
      else s1
    { s2 with pause_flag := false }
  else s

/- ------------------------------------------------------------------
   Concrete inputs used by counterexamples and witnesses.
   ------------------------------------------------------------------ -/

/-- A finished download "dl_b.opus", 5 bytes, newest (mtime 10). -/
def exFileNewer : TempFile :=
  ⟨[ 'd', 'l', '_', 'b', '.', 'o', 'p', 'u', 's' ], true, 5, 10⟩

/-- A finished download "dl_a.opus", 5 bytes, older (mtime 1). -/
def exFileOlder : TempFile :=
  ⟨[ 'd', 'l', '_', 'a', '.', 'o', 'p', 'u', 's' ], true, 5, 1⟩

/-- A temp-directory listing holding the newer file first. -/
def exListing : List TempFile := [exFileNewer, exFileOlder]

/- ==================================================================
   Theorems
   ================================================================== -/

/-- C2: a downloaded file whose leading bytes already satisfy the MP3
structural signature is used directly by both acquisition drivers: neither
the batch path (source line 589-605) nor the stream path (source line
870-873) invokes the ffmpeg transcoder, and both report the file as being in
the target format. -/
theorem acquisition_mp3_signature_skips_ffmpeg (content : List Nat)
    (ffmpegAvailable conversionOk : Bool) (h : is_real_mp3 content = true) :
    batchProcessDownloadedFile content ffmpegAvailable conversionOk = ⟨false, true, true⟩
    ∧ streamPrepareFormat content ffmpegAvailable conversionOk = ⟨false, true, true⟩ := by
  constructor <;> simp [batchProcessDownloadedFile, streamPrepareFormat, h]

/-- Witness for C2 at the concrete header "ID3" followed by a version byte. -/
theorem acquisition_mp3_signature_skips_ffmpeg_witness :
    is_real_mp3 [73, 68, 51, 4] = true
    ∧ batchProcessDownloadedFile [73, 68, 51, 4] true true = ⟨false, true, true⟩ :=
  ⟨by decide,
   (acquisition_mp3_signature_skips_ffmpeg [73, 68, 51, 4] true true (by decide)).1⟩

/-- C4: whenever format normalization fails — the transcoder is absent, or
the run exits non-zero, produces no output file, or raises (timeouts
included) — convert_to_mp3_with_ffmpeg returns False and no file remains at
the (initially absent) target path; in particular an absent transcoder never
creates a target-path file. -/
theorem convert_failure_returns_false_no_leftover (ffmpegAvailable : Bool) (run : FfmpegRun)
    (h : ffmpegAvailable = false ∨ ffmpegRunFails run = true) :
    convert_to_mp3_with_ffmpeg ffmpegAvailable none run = (false, none)
    ∧ ∀ (targetBefore : Option Nat) (r2 : FfmpegRun),
        convert_to_mp3_with_ffmpeg false targetBefore r2 = (false, targetBefore) := by
  refine ⟨?_, fun _ _ => rfl⟩
  rcases h with h | h
  · subst h; rfl
  · cases hb : ffmpegAvailable
    · rfl
    · cases run with
      | completes rc tgt =>
        have h' : ¬(rc = 0 ∧ tgt.isSome = true) := by
          intro hc
          simp [ffmpegRunFails, hc.1, hc.2] at h
        simp [convert_to_mp3_with_ffmpeg, h']
      | raisesErr tgt => rfl

/-- Witness for C4 at a concrete raising run (the transcoder available, the
run raising after writing a 7-byte partial file, which is removed). -/
theorem convert_failure_returns_false_no_leftover_witness :
    ((true : Bool) = false ∨ ffmpegRunFails (FfmpegRun.raisesErr (some 7)) = true)
    ∧ convert_to_mp3_with_ffmpeg true none (FfmpegRun.raisesErr (some 7)) = (false, none) :=
  ⟨Or.inr (by decide),
   (convert_failure_returns_false_no_leftover true (FfmpegRun.raisesErr (some 7))
     (Or.inr (by decide))).1⟩

/-- Counterexample to C5: when ffmpeg exits 0 after writing a zero-byte
target file, convert_to_mp3_with_ffmpeg returns True while the target has
size 0 — the source (line 193) checks only os.path.exists, never the size,
so success does not imply a non-empty target. -/
theorem convert_success_zero_size_counterexample :
    (convert_to_mp3_with_ffmpeg true none (FfmpegRun.completes 0 (some 0))).1 = true
    ∧ (convert_to_mp3_with_ffmpeg true none (FfmpegRun.completes 0 (some 0))).2 = some 0 := by
  constructor <;> rfl

/-- C5 amended: whenever convert_to_mp3_with_ffmpeg returns True, a file
exists at the target path (the transcoder exited 0 and the existence check
passed); its non-emptiness is not verified. -/
theorem convert_success_target_exists (ffmpegAvailable : Bool) (targetBefore : Option Nat)
    (run : FfmpegRun)
    (h : (convert_to_mp3_with_ffmpeg ffmpegAvailable targetBefore run).1 = true) :
    (convert_to_mp3_with_ffmpeg ffmpegAvailable targetBefore run).2.isSome = true := by
  cases hb : ffmpegAvailable
  · rw [hb] at h
    simp [convert_to_mp3_with_ffmpeg] at h
  · rw [hb] at h
    cases run with
    | completes rc tgt =>
      by_cases hc : rc = 0 ∧ tgt.isSome = true
      · simp [convert_to_mp3_with_ffmpeg, hc]
      · simp [convert_to_mp3_with_ffmpeg, hc] at h
    | raisesErr tgt => simp [convert_to_mp3_with_ffmpeg] at h

/-- Witness for the amended C5 at a successful run writing a 5-byte file. -/
theorem convert_success_target_exists_witness :
    (convert_to_mp3_with_ffmpeg true none (FfmpegRun.completes 0 (some 5))).1 = true
    ∧ (convert_to_mp3_with_ffmpeg true none (FfmpegRun.completes 0 (some 5))).2.isSome = true :=
  ⟨by decide,
   convert_success_target_exists true none (FfmpegRun.completes 0 (some 5)) (by decide)⟩

/-- Counterexample to C7: when the underlying yt_dlp fetch raises, the batch
run returns early (source line 510-513) and the final temp cleanup loop
(source line 659-667) is never reached — cleanup is not unconditional. -/
theorem batch_cleanup_skipped_on_fetch_error :
    (DownloadManager.downloadAudio true true 1 (fun _ => false)
        (fun _ => true)).cleanedTemp = false := rfl

/-- C7 amended: the batch run reaches its temp cleanup step whenever the
fetch call itself does not raise, regardless of per-entry outcomes and of the
stop flag; but a raising fetch, like a missing yt_dlp, returns early without
cleaning. -/
theorem batch_cleanup_amended (entryCount : Nat) (stopFlagAt entryOk : Nat → Bool) :
    (DownloadManager.downloadAudio true false entryCount stopFlagAt entryOk).cleanedTemp = true
    ∧ (DownloadManager.downloadAudio true true entryCount stopFlagAt entryOk).cleanedTemp = false
    ∧ (DownloadManager.downloadAudio false false entryCount stopFlagAt
        entryOk).cleanedTemp = false :=
  ⟨rfl, rfl, rfl⟩

/-- C9: the streaming temp-cache cleanup never removes the file the active
session currently references: every path the loop removes has an absolute
path different from the current file's (source line 696-698). -/
theorem cleanup_temp_preserves_current_file (abspath : List Char → List Char)
    (listing : List (List Char)) (cf fp : List Char)
    (hcf : cf ≠ [])
    (hmem : fp ∈ StreamPlayer.cleanup_temp abspath listing (some cf)) :
    abspath fp ≠ abspath cf := by
  rcases List.mem_filter.mp hmem with ⟨-, hp⟩
  intro he
  simp [cleanupProtects, hcf, he] at hp

/-- Witness for C9: with identity path normalization and a two-file cache,
the removed file "a" differs from the current file "b". -/
theorem cleanup_temp_preserves_current_file_witness :
    ([ 'b' ] : List Char) ≠ []
    ∧ [ 'a' ] ∈ StreamPlayer.cleanup_temp (fun p => p) [[ 'a' ], [ 'b' ]] (some [ 'b' ])
    ∧ (fun p : List Char => p) [ 'a' ] ≠ (fun p : List Char => p) [ 'b' ] :=
  ⟨by decide, by decide,
   cleanup_temp_preserves_current_file (fun p => p) [[ 'a' ], [ 'b' ]] [ 'b' ] [ 'a' ]
     (by decide) (by decide)⟩

/-- Helper: with the stop flag never set, the streaming loop over r + 1
entries starting at index i only moves the cursor to the last iteration
number. -/
theorem streamLoop_no_stop (stopFlagAt : Nat → Bool) (h : ∀ j, stopFlagAt j = false) :
    ∀ (r i : Nat) (s : StreamState),
      streamLoop stopFlagAt s i (r + 1) = { s with current_index := i + r } := by
  intro r
  induction r with
  | zero =>
    intro i s
    simp [streamLoop, h i]
  | succ r ih =>
    intro i s
    show streamLoop stopFlagAt s i (r + 1 + 1) = _
    rw [streamLoop, h i]
    simp only [Bool.false_eq_true, if_false]
    rw [ih (i + 1) { s with current_index := i }]
    cases s
    simp
    omega

/-- Counterexample to C8: a streaming run over two entries that terminates
normally leaves the queue holding both entries and current_index at 1 — the
queue is neither emptied nor its index reset when stream_playlist returns
(the source only clears the UI display, line 752). -/
theorem stream_queue_not_cleared_counterexample :
    (StreamPlayer.stream_playlist ⟨[], 0, false, false, false⟩ [5, 6]
        (fun _ => false)).queue = [5, 6]
    ∧ (StreamPlayer.stream_playlist ⟨[], 0, false, false, false⟩ [5, 6]
        (fun _ => false)).current_index = 1 := by
  constructor <;> rfl

/-- C8 amended: at the start of a streaming run the cancellation flags and
current_index are reset and the queue is overwritten with the newly resolved
entries (kept unchanged when resolution yields none); at the end nothing
empties the queue or resets the index, so after a run over a non-empty entry
list that is never stopped the queue still holds all resolved entries and
current_index equals the last entry's index. -/
theorem stream_queue_amended (s : StreamState) (resolved : List Nat)
    (stopFlagAt : Nat → Bool)
    (hne : resolved ≠ []) (hstop : ∀ i, stopFlagAt i = false) :
    (StreamPlayer.stream_playlist s resolved stopFlagAt).queue = resolved
    ∧ (StreamPlayer.stream_playlist s resolved stopFlagAt).current_index
        = resolved.length - 1 := by
  have hlen : resolved.length - 1 + 1 = resolved.length := by
    cases resolved with
    | nil => exact absurd rfl hne
    | cons a l => simp
  unfold StreamPlayer.stream_playlist
  rw [if_neg hne, ← hlen, streamLoop_no_stop stopFlagAt hstop (resolved.length - 1) 0]
  refine ⟨rfl, ?_⟩
  show 0 + (resolved.length - 1) = resolved.length - 1 + 1 - 1
  omega

/-- Witness for the amended C8 over a concrete two-entry run. -/
theorem stream_queue_amended_witness :
    ([5, 6] : List Nat) ≠ []
    ∧ (StreamPlayer.stream_playlist ⟨[9], 4, false, false, false⟩ [5, 6]
        (fun _ => false)).queue = [5, 6]
    ∧ (StreamPlayer.stream_playlist ⟨[9], 4, false, false, false⟩ [5, 6]
        (fun _ => false)).current_index = [5, 6].length - 1 :=
  ⟨by decide,
   (stream_queue_amended ⟨[9], 4, false, false, false⟩ [5, 6] (fun _ => false)
      (by decide) (fun _ => rfl)).1,
   (stream_queue_amended ⟨[9], 4, false, false, false⟩ [5, 6] (fun _ => false)
      (by decide) (fun _ => rfl)).2⟩

/-- Helper for C1: after resume, at every instant the computed elapsed time
continues from the value frozen at the pause timestamp.  The last hypothesis
is the accuracy of the captured position, needed only on the exceptional
seek path that rewrites play_start_time. -/
theorem resume_elapsed_eq (u : PlayTiming) (tr t2 : ℚ) (hasSeek seekRaises : Bool)
    (hu : u.pause_flag = true) (hl : 0 < u.last_pause_time)
    (hpos : seekRaises = true → u.pause_position ≠ 0 → hasSeek = true →
      u.pause_position = u.last_pause_time - u.play_start_time - u.total_paused_time) :
    StreamPlayer.elapsedAt (StreamPlayer.resume u tr true hasSeek seekRaises) t2
      = (u.last_pause_time - u.play_start_time - u.total_paused_time) + (t2 - tr) := by
  simp only [StreamPlayer.resume, hu, hl, true_and, and_true, if_true, if_pos]
  split_ifs with h1 h2
  · rw [hpos h2 h1.1 h1.2]
    simp [StreamPlayer.elapsedAt]
    ring
  · simp [StreamPlayer.elapsedAt]
    ring
  · simp [StreamPlayer.elapsedAt]
    ring

/-- C1: for a playing session with no pending pause timestamp, pause() at
instant t followed by resume() at instant tr leaves the computed elapsed
time unchanged, however large tr - t is; a progress tick at any instant t2
after the resume reports the pre-pause elapsed value plus only t2 - tr, so
the first tick (at most 0.5 s after resume) reports elapsed within the
polling tolerance.  The last hypothesis covers the code's designed cases:
the seek attempt does not raise, or the captured position was computed from
the elapsed-time accounting (get_pos raised), or get_pos reported the true
elapsed position. -/
theorem pause_resume_elapsed_unchanged (s : PlayTiming) (t tr : ℚ)
    (posRes : GetPosResult) (hasSeek seekRaises : Bool)
    (hflag : s.pause_flag = false) (hlast : s.last_pause_time = 0) (ht : 0 < t)
    (hsafe : seekRaises = false ∨ posRes = GetPosResult.raisesErr
        ∨ posRes = GetPosResult.val (StreamPlayer.elapsedAt s t)) :
    StreamPlayer.elapsedAt
        (StreamPlayer.resume (StreamPlayer.pause s t true posRes) tr true hasSeek seekRaises) tr
      = StreamPlayer.elapsedAt s t
    ∧ ∀ t2 : ℚ, StreamPlayer.elapsedAt
        (StreamPlayer.resume (StreamPlayer.pause s t true posRes) tr true hasSeek seekRaises) t2
      = StreamPlayer.elapsedAt s t + (t2 - tr) := by
  have hel : StreamPlayer.elapsedAt s t = t - s.play_start_time - s.total_paused_time := by
    simp [StreamPlayer.elapsedAt, hflag]
  have h1 : (StreamPlayer.pause s t true posRes).play_start_time = s.play_start_time := by
    rcases posRes with p | _ | _ <;> simp [StreamPlayer.pause, hlast]
  have h2 : (StreamPlayer.pause s t true posRes).total_paused_time
      = s.total_paused_time := by
    rcases posRes with p | _ | _ <;> simp [StreamPlayer.pause, hlast]
  have h3 : (StreamPlayer.pause s t true posRes).last_pause_time = t := by
    rcases posRes with p | _ | _ <;> simp [StreamPlayer.pause, hlast]
  have h4 : (StreamPlayer.pause s t true posRes).pause_flag = true := by
    rcases posRes with p | _ | _ <;> simp [StreamPlayer.pause, hlast]
  have h5 : seekRaises = true →
      (StreamPlayer.pause s t true posRes).pause_position ≠ 0 → hasSeek = true →
      (StreamPlayer.pause s t true posRes).pause_position
        = (StreamPlayer.pause s t true posRes).last_pause_time
          - (StreamPlayer.pause s t true posRes).play_start_time
          - (StreamPlayer.pause s t true posRes).total_paused_time := by
    intro hsr _ _
    rw [h1, h2, h3]
    rcases hsafe with h | h | h
    · rw [h] at hsr; cases hsr
    · subst h; simp [StreamPlayer.pause, hlast]
    · subst h; simp [StreamPlayer.pause, hlast, hel]
  have hgen : ∀ t2 : ℚ, StreamPlayer.elapsedAt
      (StreamPlayer.resume (StreamPlayer.pause s t true posRes) tr true hasSeek seekRaises) t2
    = StreamPlayer.elapsedAt s t + (t2 - tr) := by
    intro t2
    rw [resume_elapsed_eq _ tr t2 hasSeek seekRaises h4 (by rw [h3]; exact ht) h5]
    rw [h1, h2, h3, hel]
  refine ⟨?_, hgen⟩
  have := hgen tr
  simpa using this

/-- Witness for C1: start playback at instant 100, pause at 110 (elapsed 10),
wait 5 seconds, resume at 115 with get_pos raising and the seek raising; the
computed elapsed time right after the resume is still 10. -/
theorem pause_resume_elapsed_unchanged_witness :
    (PlayTiming.start 100).pause_flag = false
    ∧ (PlayTiming.start 100).last_pause_time = 0
    ∧ (0 : ℚ) < 110
    ∧ StreamPlayer.elapsedAt
        (StreamPlayer.resume
          (StreamPlayer.pause (PlayTiming.start 100) 110 true GetPosResult.raisesErr)
          115 true true true) 115
      = StreamPlayer.elapsedAt (PlayTiming.start 100) 110 :=
  ⟨rfl, rfl, by norm_num,
   (pause_resume_elapsed_unchanged (PlayTiming.start 100) 110 115 GetPosResult.raisesErr
      true true rfl rfl (by norm_num) (Or.inr (Or.inl rfl))).1⟩

/-- Helper for C3: the size-estimate stage agrees with the spec's ranked
resolver on the single estimate source. -/
theorem durationStage4_spec (sz : Nat) :
    durationStage4 sz = durationResolveRankedSpec [estimate_duration_from_size_bytes sz 128] := by
  unfold durationStage4 estimate_duration_from_size_bytes
  by_cases h : sz = 0
  · simp [h, durationResolveRankedSpec]
  · have hpos : 0 < ((sz : ℚ) * 8) / (128 * 1000) := by
      have hsz : 0 < (sz : ℚ) := by
        exact_mod_cast Nat.pos_of_ne_zero h
      positivity
    simp [h, hpos, ne_of_gt hpos, durationResolveRankedSpec]

/-- Helper for C3: the SoundLoader stage agrees with the spec's ranked
resolver when the reported length is non-negative. -/
theorem durationStage3_spec (l : Option ℚ) (sz : Nat)
    (hl : ∀ v, l = some v → 0 ≤ v) :
    durationStage3 l sz
      = durationResolveRankedSpec [l, estimate_duration_from_size_bytes sz 128] := by
  cases l with
  | none => simpa [durationStage3, durationResolveRankedSpec] using durationStage4_spec sz
  | some v =>
    have hv := hl v rfl
    by_cases hz : v = 0
    · subst hz
      simpa [durationStage3, durationResolveRankedSpec] using durationStage4_spec sz
    · have hpos : 0 < v := lt_of_le_of_ne hv (Ne.symm hz)
      simp [durationStage3, durationResolveRankedSpec, hz, hpos]

/-- Helper for C3: the mutagen stage agrees with the spec's ranked resolver
when the non-none sources are non-negative. -/
theorem durationStage2_spec (m l : Option ℚ) (sz : Nat)
    (hm : ∀ v, m = some v → 0 ≤ v) (hl : ∀ v, l = some v → 0 ≤ v) :
    durationStage2 m l sz
      = durationResolveRankedSpec [m, l, estimate_duration_from_size_bytes sz 128] := by
  cases m with
  | none => simpa [durationStage2, durationResolveRankedSpec] using durationStage3_spec l sz hl
  | some v =>
    have hv := hm v rfl
    by_cases hz : v = 0
    · subst hz
      simpa [durationStage2, durationResolveRankedSpec] using durationStage3_spec l sz hl
    · have hpos : 0 < v := lt_of_le_of_ne hv (Ne.symm hz)
      simp [durationStage2, durationResolveRankedSpec, hz, hpos]

/-- C3: whenever the duration sources report non-negative values (durations),
get_duration_best_effort equals the spec's ranked-strategy resolver — the
sources are tried strictly in the order declared metadata, mutagen length,
SoundLoader length, size estimate, short-circuiting on the first positive
one; and for a 1,000,000-byte file whose other sources all fail, the result
is the estimate 8000000 / 128000 = 62.5 seconds. -/
theorem get_duration_best_effort_ranked_order :
    (∀ (d m l : Option ℚ) (sz : Nat),
        (∀ v, d = some v → 0 ≤ v) → (∀ v, m = some v → 0 ≤ v) →
        (∀ v, l = some v → 0 ≤ v) →
        get_duration_best_effort d m l sz
          = durationResolveRankedSpec [d, m, l, estimate_duration_from_size_bytes sz 128])
    ∧ get_duration_best_effort none none none 1000000 = some (125 / 2) := by
  constructor
  · intro d m l sz hd hm hl
    cases d with
    | none =>
      simpa [get_duration_best_effort, durationResolveRankedSpec] using
        durationStage2_spec m l sz hm hl
    | some v =>
      have hv := hd v rfl
      by_cases hz : v = 0
      · subst hz
        simpa [get_duration_best_effort, durationResolveRankedSpec] using
          durationStage2_spec m l sz hm hl
      · have hpos : 0 < v := lt_of_le_of_ne hv (Ne.symm hz)
        simp [get_duration_best_effort, durationResolveRankedSpec, hz, hpos]
  · show durationStage2 none none 1000000 = some (125 / 2)
    show durationStage3 none 1000000 = some (125 / 2)
    show durationStage4 1000000 = some (125 / 2)
    have : ((1000000 : ℚ) * 8) / (128 * 1000) = 125 / 2 := by norm_num
    simp [durationStage4, estimate_duration_from_size_bytes, this]

/-- Witness for C3: the order property applied at a declared duration of 10
seconds, a zero mutagen length, a missing SoundLoader length and a 16,000
byte file: the declared duration wins. -/
theorem get_duration_best_effort_ranked_order_witness :
    (∀ v : ℚ, (some 10 : Option ℚ) = some v → 0 ≤ v)
    ∧ (∀ v : ℚ, (some 0 : Option ℚ) = some v → 0 ≤ v)
    ∧ (∀ v : ℚ, (none : Option ℚ) = some v → 0 ≤ v)
    ∧ get_duration_best_effort (some 10) (some 0) none 16000
      = durationResolveRankedSpec
          [some 10, some 0, none, estimate_duration_from_size_bytes 16000 128] := by
  refine ⟨?_, ?_, ?_, ?_⟩
  · intro v hv
    injection hv with h
    rw [← h]
    norm_num
  · intro v hv
    injection hv with h
    rw [← h]
  · intro v hv
    cases hv
  · exact get_duration_best_effort_ranked_order.1 (some 10) (some 0) none 16000
      (by intro v hv; injection hv with h; rw [← h]; norm_num)
      (by intro v hv; injection hv with h; rw [← h])
      (by intro v hv; cases hv)

/-- Helper for C6: membership through the stable insertion. -/
theorem mem_insertByMtimeDesc {g f : TempFile} :
    ∀ {l : List TempFile}, g ∈ insertByMtimeDesc f l ↔ g = f ∨ g ∈ l := by
  intro l
  induction l with
  | nil => simp [insertByMtimeDesc]
  | cons a rest ih =>
    by_cases h : a.mtime ≤ f.mtime
    · simp [insertByMtimeDesc, h]
    · simp only [insertByMtimeDesc, h, if_false, List.mem_cons, ih]
      tauto

/-- Helper for C6: membership through the stable sort. -/
theorem mem_pySortByMtimeDesc {g : TempFile} :
    ∀ {l : List TempFile}, g ∈ pySortByMtimeDesc l ↔ g ∈ l := by
  intro l
  induction l with
  | nil => simp [pySortByMtimeDesc]
  | cons a rest ih =>
    simp [pySortByMtimeDesc, mem_insertByMtimeDesc, ih]

/-- Helper for C6: inserting preserves the weakly-descending order. -/
theorem pairwise_insertByMtimeDesc (f : TempFile) :
    ∀ (l : List TempFile), l.Pairwise (fun a b => b.mtime ≤ a.mtime) →
      (insertByMtimeDesc f l).Pairwise (fun a b => b.mtime ≤ a.mtime) := by
  intro l
  induction l with
  | nil =>
    intro _
    simp [insertByMtimeDesc]
  | cons a rest ih =>
    intro h
    rcases List.pairwise_cons.mp h with ⟨ha, hrest⟩
    by_cases hle : a.mtime ≤ f.mtime
    · simp only [insertByMtimeDesc, hle, if_true]
      refine List.pairwise_cons.mpr ⟨?_, h⟩
      intro b hb
      rcases List.mem_cons.mp hb with rfl | hb
      · exact hle
      · exact le_trans (ha b hb) hle
    · simp only [insertByMtimeDesc, hle, if_false]
      refine List.pairwise_cons.mpr ⟨?_, ih hrest⟩
      intro b hb
      rcases mem_insertByMtimeDesc.mp hb with rfl | hb
      · omega
      · exact ha b hb

/-- Helper for C6: the modelled Python sort is weakly descending in mtime. -/
theorem pairwise_pySortByMtimeDesc :
    ∀ (l : List TempFile), (pySortByMtimeDesc l).Pairwise (fun a b => b.mtime ≤ a.mtime) := by
  intro l
  induction l with
  | nil => simp [pySortByMtimeDesc]
  | cons a rest ih => exact pairwise_insertByMtimeDesc a _ ih

/-- Helper for C6: in a weakly-descending list, the first element of positive
size has maximal mtime among all elements of positive size. -/
theorem find?_pos_size_max :
    ∀ (l : List TempFile), l.Pairwise (fun a b => b.mtime ≤ a.mtime) →
      ∀ f, l.find? (fun g => decide (0 < g.size)) = some f →
      ∀ g ∈ l, 0 < g.size → g.mtime ≤ f.mtime := by
  intro l
  induction l with
  | nil =>
    intro _ f hf
    cases hf
  | cons a rest ih =>
    intro hp f hf g hg hgsize
    rcases List.pairwise_cons.mp hp with ⟨ha, hrest⟩
    by_cases hpa : 0 < a.size
    · rw [List.find?_cons_of_pos _ (by simpa using hpa)] at hf
      rcases List.mem_cons.mp hg with rfl | hg
      · cases hf
        exact le_refl _
      · cases hf
        exact ha g hg
    · rw [List.find?_cons_of_neg _ (by simpa using hpa)] at hf
      rcases List.mem_cons.mp hg with rfl | hg
      · exact absurd hgsize hpa
      · exact ih hrest f hf g hg hgsize

/-- Helper for C6: the stream scan, generalized over its accumulator, returns
the first eligible *.mp3 candidate in listing order, else the last eligible
candidate, else the accumulator. -/
theorem streamFind_characterization (pre : List Char) :
    ∀ (l : List TempFile) (acc : Option TempFile),
      streamFind pre l acc
        = match (l.filter (streamEligible pre)).find?
              (fun f => listEndsWith (f.name.map pyLowerChar) mp3Ext) with
          | some f => some f
          | none => (l.filter (streamEligible pre)).foldl (fun _ f => some f) acc := by
  intro l
  induction l with
  | nil =>
    intro acc
    rfl
  | cons f rest ih =>
    intro acc
    cases hy : listEndsWith f.name ytdlSuffix with
    | true =>
      have helig : streamEligible pre f = false := by simp [streamEligible, hy]
      rw [show streamFind pre (f :: rest) acc = streamFind pre rest acc by
            simp [streamFind, hy]]
      simp only [List.filter_cons, helig, Bool.false_eq_true, if_false]
      exact ih acc
    | false =>
      cases hp : listEndsWith f.name partSuffix with
      | true =>
        have helig : streamEligible pre f = false := by simp [streamEligible, hp]
        rw [show streamFind pre (f :: rest) acc = streamFind pre rest acc by
              simp [streamFind, hy, hp]]
        simp only [List.filter_cons, helig, Bool.false_eq_true, if_false]
        exact ih acc
      | false =>
        cases hs : listStartsWith f.name pre with
        | false =>
          have helig : streamEligible pre f = false := by
            simp [streamEligible, hs]
          rw [show streamFind pre (f :: rest) acc = streamFind pre rest acc by
                simp [streamFind, hy, hp, hs]]
          simp only [List.filter_cons, helig, Bool.false_eq_true, if_false]
          exact ih acc
        | true =>
          cases hif : f.isfile with
          | false =>
            have helig : streamEligible pre f = false := by
              simp [streamEligible, hif]
            rw [show streamFind pre (f :: rest) acc = streamFind pre rest acc by
                  simp [streamFind, hy, hp, hs, hif]]
            simp only [List.filter_cons, helig, Bool.false_eq_true, if_false]
            exact ih acc
          | true =>
            cases hsz : decide (0 < f.size) with
            | false =>
              have helig : streamEligible pre f = false := by
                simp only [streamEligible, hsz, Bool.and_false]
              rw [show streamFind pre (f :: rest) acc = streamFind pre rest acc by
                    simp [streamFind, hy, hp, hs, hif, hsz]]
              simp only [List.filter_cons, helig, Bool.false_eq_true, if_false]
              exact ih acc
            | true =>
              have helig : streamEligible pre f = true := by
                simp [streamEligible, hy, hp, hs, hif, hsz]
              cases hm : listEndsWith (f.name.map pyLowerChar) mp3Ext with
              | true =>
                rw [show streamFind pre (f :: rest) acc = some f by
                      simp [streamFind, hy, hp, hs, hif, hsz, hm]]
                simp [List.filter_cons, helig, List.find?, hm]
              | false =>
                rw [show streamFind pre (f :: rest) acc
                      = streamFind pre rest (some f) by
                      simp [streamFind, hy, hp, hs, hif, hsz, hm]]
                rw [ih (some f)]
                simp [List.filter_cons, helig, List.find?, hm]

/-- Counterexample to C6: on a listing holding two finished, non-empty,
non-partial candidates — "dl_b.opus" (mtime 10) listed first and "dl_a.opus"
(mtime 1) listed second — the batch driver selects the most recently
modified "dl_b.opus", while the stream driver (scanning with the same "dl_"
name marker) selects "dl_a.opus", the last one in listing order; the newer
file was eligible for the stream scan, so the stream driver neither selects
the most recently modified candidate nor behaves identically to the batch
driver. -/
theorem candidate_selection_drivers_differ_counterexample :
    batchSelect exListing = some exFileNewer
    ∧ streamSelect exListing dlMarker = some exFileOlder
    ∧ exFileOlder.mtime < exFileNewer.mtime
    ∧ streamEligible dlMarker exFileNewer = true := by
  refine ⟨by decide, by decide, by decide, by decide⟩

/-- C6 amended: the two drivers locate the produced file differently.  The
batch driver filters the listing to non-partial "dl_"-named regular files and
selects a positive-size candidate of maximal modification time; the stream
driver walks the listing in directory order and returns the first eligible
candidate whose lowercased name ends in ".mp3" or, failing that, the last
eligible candidate in listing order — it never consults modification times,
so the selection is not driver-agnostic. -/
theorem candidate_selection_amended :
    (∀ (listing : List TempFile) (f : TempFile), batchSelect listing = some f →
        f ∈ batchCandidateFilter listing ∧ 0 < f.size
        ∧ ∀ g ∈ batchCandidateFilter listing, 0 < g.size → g.mtime ≤ f.mtime)
    ∧ ∀ (listing : List TempFile) (pre : List Char),
        streamSelect listing pre = streamSelectSpec pre listing := by
  constructor
  · intro listing f hf
    unfold batchSelect at hf
    have hmem := List.mem_of_find?_eq_some hf
    have hsize : 0 < f.size := by simpa using List.find?_some hf
    refine ⟨mem_pySortByMtimeDesc.mp hmem, hsize, ?_⟩
    intro g hg hgs
    exact find?_pos_size_max _ (pairwise_pySortByMtimeDesc _) f hf g
      (mem_pySortByMtimeDesc.mpr hg) hgs
  · intro listing pre
    unfold streamSelect streamSelectSpec lastOption
    exact streamFind_characterization pre listing none

/-- Witness for the amended C6 on the concrete two-file listing. -/
theorem candidate_selection_amended_witness :
    batchSelect exListing = some exFileNewer
    ∧ exFileNewer ∈ batchCandidateFilter exListing
    ∧ 0 < exFileNewer.size
    ∧ streamSelect exListing dlMarker = streamSelectSpec dlMarker exListing :=
  ⟨by decide,
   (candidate_selection_amended.1 exListing exFileNewer (by decide)).1,
   (candidate_selection_amended.1 exListing exFileNewer (by decide)).2.1,
   candidate_selection_amended.2 exListing dlMarker⟩

/-- Helper for C10: dropWhile is idempotent. -/
theorem dropWhile_dropWhile {α : Type} (p : α → Bool) :
    ∀ (l : List α), (l.dropWhile p).dropWhile p = l.dropWhile p := by
  intro l
  induction l with
  | nil => rfl
  | cons a rest ih =>
    cases ha : p a with
    | true => simpa [List.dropWhile, ha] using ih
    | false => simp [List.dropWhile, ha]

/-- Helper for C10: the head of a dropWhile result falsifies the predicate. -/
theorem head?_dropWhile_false {α : Type} (p : α → Bool) :
    ∀ (l : List α) (c : α), (l.dropWhile p).head? = some c → p c = false := by
  intro l
  induction l with
  | nil =>
    intro c hc
    cases hc
  | cons a rest ih =>
    intro c hc
    cases ha : p a with
    | true =>
      rw [List.dropWhile_cons_of_pos ha] at hc
      exact ih c hc
    | false =>
      rw [List.dropWhile_cons_of_neg (by simp [ha])] at hc
      cases hc
      exact ha

/-- Helper for C10: dropWhile removes an initial segment. -/
theorem dropWhile_drops_initial {α : Type} (p : α → Bool) :
    ∀ (l : List α), ∃ t, t ++ l.dropWhile p = l := by
  intro l
  induction l with
  | nil => exact ⟨[], rfl⟩
  | cons a rest ih =>
    cases ha : p a with
    | true =>
      rcases ih with ⟨t, ht⟩
      exact ⟨a :: t, by simp [List.dropWhile_cons_of_pos ha, ht]⟩
    | false =>
      refine ⟨[], ?_⟩
      rw [List.dropWhile_cons_of_neg (by simp [ha])]
      rfl

/-- Helper for C10: the head of an append with a non-empty left part. -/
theorem head?_append_left {α : Type} (l t : List α) (h : l ≠ []) :
    (l ++ t).head? = l.head? := by
  cases l with
  | nil => exact absurd rfl h
  | cons a rest => rfl

/-- Helper for C10: a list whose head falsifies the predicate is untouched by
dropWhile. -/
theorem dropWhile_eq_self_of_head {α : Type} (p : α → Bool) (l : List α)
    (h : ∀ c, l.head? = some c → p c = false) : l.dropWhile p = l := by
  cases l with
  | nil => rfl
  | cons a rest => exact List.dropWhile_cons_of_neg (by simp [h a rfl])

/-- Helper for C10: the first character of a stripped string is not
whitespace. -/
theorem head?_pyStrip (l : List Char) (c : Char) (hc : (pyStrip l).head? = some c) :
    c.isWhitespace = false := by
  unfold pyStrip at hc
  rcases dropWhile_drops_initial Char.isWhitespace
      (l.dropWhile Char.isWhitespace).reverse with ⟨t, ht⟩
  have hA : l.dropWhile Char.isWhitespace
      = ((l.dropWhile Char.isWhitespace).reverse.dropWhile Char.isWhitespace).reverse
        ++ t.reverse := by
    have h2 := congrArg List.reverse ht
    simpa [List.reverse_append] using h2.symm
  have hne : ((l.dropWhile Char.isWhitespace).reverse.dropWhile Char.isWhitespace).reverse
      ≠ [] := by
    intro h0
    rw [h0] at hc
    cases hc
  apply head?_dropWhile_false Char.isWhitespace l c
  rw [hA, head?_append_left _ _ hne]
  exact hc

/-- Helper for C10: the last character of a stripped string is not
whitespace. -/
theorem getLast?_pyStrip (l : List Char) (c : Char)
    (hc : (pyStrip l).getLast? = some c) : c.isWhitespace = false := by
  unfold pyStrip at hc
  rw [List.getLast?_reverse] at hc
  exact head?_dropWhile_false Char.isWhitespace _ c hc

/-- Helper for C10: stripping is idempotent. -/
theorem pyStrip_idem (l : List Char) : pyStrip (pyStrip l) = pyStrip l := by
  have hfix : (pyStrip l).dropWhile Char.isWhitespace = pyStrip l :=
    dropWhile_eq_self_of_head Char.isWhitespace (pyStrip l) (head?_pyStrip l)
  show pyStrip (pyStrip l) = pyStrip l
  unfold pyStrip
  unfold pyStrip at hfix
  rw [hfix, List.reverse_reverse, dropWhile_dropWhile]

/-- Helper for C10: stripping only removes characters. -/
theorem mem_pyStrip (l : List Char) (c : Char) (hc : c ∈ pyStrip l) : c ∈ l := by
  unfold pyStrip at hc
  rw [List.mem_reverse] at hc
  have h1 := (List.dropWhile_sublist Char.isWhitespace).subset hc
  rw [List.mem_reverse] at h1
  exact (List.dropWhile_sublist Char.isWhitespace).subset h1

/-- Helper for C10: every character of a sanitized name passes the keep
test (the underscore replacement itself is a kept character). -/
theorem sanitize_filename_chars_kept (name : List Char) :
    ∀ c ∈ sanitize_filename name, allowedKeep c = true := by
  intro c hc
  have hc' := mem_pyStrip _ c hc
  rcases List.mem_map.mp hc' with ⟨a, -, ha⟩
  by_cases h : allowedKeep a = true
  · rw [← ha]
    simp [h]
  · rw [← ha]
    simp only [Bool.not_eq_true] at h
    simp [h]
    decide

/-- C10: sanitize_filename is idempotent, its output holds only alphanumeric
characters and characters of " ._-()", and the output carries no leading or
trailing whitespace. -/
theorem sanitize_filename_idempotent_charset (name : List Char) :
    sanitize_filename (sanitize_filename name) = sanitize_filename name
    ∧ (∀ c ∈ sanitize_filename name, c.isAlphanum = true ∨ c ∈ allowedPunct)
    ∧ (∀ c, (sanitize_filename name).head? = some c → c.isWhitespace = false)
    ∧ (∀ c, (sanitize_filename name).getLast? = some c → c.isWhitespace = false) := by
  refine ⟨?_, ?_, ?_, ?_⟩
  · have hmap : (sanitize_filename name).map
        (fun c => if allowedKeep c then c else '_') = sanitize_filename name := by
      have := List.map_congr_left (l := sanitize_filename name)
        (f := fun c => if allowedKeep c then c else '_') (g := id)
        (fun a ha => by simp [sanitize_filename_chars_kept name a ha])
      simpa using this
    show pyStrip ((sanitize_filename name).map _) = sanitize_filename name
    rw [hmap]
    show pyStrip (pyStrip (name.map _)) = pyStrip (name.map _)
    exact pyStrip_idem _
  · intro c hc
    have h := sanitize_filename_chars_kept name c hc
    rcases Bool.or_eq_true_iff.mp h with h | h
    · exact Or.inl h
    · exact Or.inr (of_decide_eq_true h)
  · exact head?_pyStrip _
  · exact getLast?_pyStrip _

/-- Witness for C10 at the concrete name " a/b.mp3 ": sanitization replaces
the slash and strips the blanks, and a second application changes nothing. -/
theorem sanitize_filename_idempotent_charset_witness :
    sanitize_filename (sanitize_filename
        [ ' ', 'a', '/', 'b', '.', 'm', 'p', '3', ' ' ])
      = sanitize_filename [ ' ', 'a', '/', 'b', '.', 'm', 'p', '3', ' ' ]
    ∧ 'a' ∈ sanitize_filename [ ' ', 'a', '/', 'b', '.', 'm', 'p', '3', ' ' ]
    ∧ ('a'.isAlphanum = true ∨ 'a' ∈ allowedPunct) :=
  ⟨(sanitize_filename_idempotent_charset [ ' ', 'a', '/', 'b', '.', 'm', 'p', '3', ' ' ]).1,
   by decide,
   (sanitize_filename_idempotent_charset
      [ ' ', 'a', '/', 'b', '.', 'm', 'p', '3', ' ' ]).2.1 'a' (by decide)⟩
